import Mathlib

/-!
Verification development for the indicator computation engine of a
stock-analysis repository (source: `data_download.py`).

The engine works on pandas DataFrames of IEEE-754 double columns.  The
shallow embedding idealizes a double as an exact rational extended with
the two infinities and a not-a-number sentinel (`FVal`); pandas columns
become `List FVal`, DataFrames become ordered association lists from
column names to columns, and every transform of the source is translated
function by function.  In-place column assignment (`data[c] = v`) is
modelled by returning the post-call state of the mutated object.

The model has no negative zero.  The only place a `-0.0` can arise in the
source is as an intermediate (a negated zero loss in the RSI computation,
or a quotient by an infinity); in IEEE arithmetic those intermediates feed
into `1 + x`, `100 / x` and `100 - x` exactly as a positive zero would as
far as the returned values are concerned, so collapsing `-0.0` to `0`
does not change any output of the embedded functions.
-/

/-- One cell of a pandas float64 column: not-a-number, the two
infinities, or a finite value idealized as an exact rational. -/
inductive FVal where
  | nan : FVal
  | inf : FVal
  | ninf : FVal
  | fin : ℚ → FVal
deriving DecidableEq

/-- IEEE addition on `FVal` (no negative zero). -/
def fadd : FVal → FVal → FVal
  | FVal.nan, _ => FVal.nan
  | _, FVal.nan => FVal.nan
  | FVal.inf, FVal.ninf => FVal.nan
  | FVal.ninf, FVal.inf => FVal.nan
  | FVal.inf, _ => FVal.inf
  | _, FVal.inf => FVal.inf
  | FVal.ninf, _ => FVal.ninf
  | _, FVal.ninf => FVal.ninf
  | FVal.fin a, FVal.fin b => FVal.fin (a + b)

/-- IEEE negation on `FVal`. -/
def fneg : FVal → FVal
  | FVal.nan => FVal.nan
  | FVal.inf => FVal.ninf
  | FVal.ninf => FVal.inf
  | FVal.fin a => FVal.fin (-a)

/-- IEEE subtraction, `a - b = a + (-b)`. -/
def fsub (a b : FVal) : FVal := fadd a (fneg b)

/-- IEEE multiplication on `FVal`; an infinity times zero is NaN. -/
def fmul : FVal → FVal → FVal
  | FVal.nan, _ => FVal.nan
  | _, FVal.nan => FVal.nan
  | FVal.inf, FVal.inf => FVal.inf
  | FVal.inf, FVal.ninf => FVal.ninf
  | FVal.ninf, FVal.inf => FVal.ninf
  | FVal.ninf, FVal.ninf => FVal.inf
  | FVal.inf, FVal.fin b =>
      if 0 < b then FVal.inf else if b < 0 then FVal.ninf else FVal.nan
  | FVal.fin a, FVal.inf =>
      if 0 < a then FVal.inf else if a < 0 then FVal.ninf else FVal.nan
  | FVal.ninf, FVal.fin b =>
      if 0 < b then FVal.ninf else if b < 0 then FVal.inf else FVal.nan
  | FVal.fin a, FVal.ninf =>
      if 0 < a then FVal.ninf else if a < 0 then FVal.inf else FVal.nan
  | FVal.fin a, FVal.fin b => FVal.fin (a * b)

/-- IEEE division on `FVal`; a finite nonzero value over zero is a signed
infinity, zero over zero is NaN, a finite value over an infinity is zero
(the model has no negative zero, so `x / ±inf` is plain `0`, which feeds
into every use site exactly as IEEE `±0.0` would). -/
def fdiv : FVal → FVal → FVal
  | FVal.nan, _ => FVal.nan
  | _, FVal.nan => FVal.nan
  | FVal.inf, FVal.inf => FVal.nan
  | FVal.inf, FVal.ninf => FVal.nan
  | FVal.ninf, FVal.inf => FVal.nan
  | FVal.ninf, FVal.ninf => FVal.nan
  | FVal.inf, FVal.fin b => if b < 0 then FVal.ninf else FVal.inf
  | FVal.ninf, FVal.fin b => if b < 0 then FVal.inf else FVal.ninf
  | FVal.fin _, FVal.inf => FVal.fin 0
  | FVal.fin _, FVal.ninf => FVal.fin 0
  | FVal.fin a, FVal.fin b =>
      if b = 0 then
        (if a = 0 then FVal.nan else if 0 < a then FVal.inf else FVal.ninf)
      else FVal.fin (a / b)

/-- IEEE strict greater-than as a Boolean; any comparison with NaN is
false (this is how a Python `x > y` on floats behaves). -/
def fgt : FVal → FVal → Bool
  | FVal.nan, _ => false
  | _, FVal.nan => false
  | FVal.inf, FVal.inf => false
  | FVal.inf, _ => true
  | _, FVal.inf => false
  | FVal.ninf, _ => false
  | _, FVal.ninf => true
  | FVal.fin a, FVal.fin b => decide (b < a)

@[simp] lemma fadd_fin (a b : ℚ) : fadd (FVal.fin a) (FVal.fin b) = FVal.fin (a + b) := rfl

@[simp] lemma fneg_fin (a : ℚ) : fneg (FVal.fin a) = FVal.fin (-a) := rfl

@[simp] lemma fsub_fin (a b : ℚ) : fsub (FVal.fin a) (FVal.fin b) = FVal.fin (a - b) := by
  show FVal.fin (a + -b) = FVal.fin (a - b)
  rw [← sub_eq_add_neg]

@[simp] lemma fmul_fin (a b : ℚ) : fmul (FVal.fin a) (FVal.fin b) = FVal.fin (a * b) := rfl

lemma fdiv_fin (a b : ℚ) :
    fdiv (FVal.fin a) (FVal.fin b) =
      if b = 0 then
        (if a = 0 then FVal.nan else if 0 < a then FVal.inf else FVal.ninf)
      else FVal.fin (a / b) := rfl

@[simp] lemma fdiv_fin_of_ne (a b : ℚ) (hb : b ≠ 0) :
    fdiv (FVal.fin a) (FVal.fin b) = FVal.fin (a / b) := by
  rw [fdiv_fin, if_neg hb]

/-- Sum of a list of cells, folded with IEEE addition. -/
def fsum (xs : List FVal) : FVal := xs.foldr fadd (FVal.fin 0)

/-- A pandas DataFrame: an ordered association list from column names to
float64 columns.  (The row index is shared by all columns of one frame
and never inspected by the engine, so it is not represented; alignment
"1:1 by timestamp" becomes positional alignment of the lists.) -/
structure DataFrame where
  cols : List (String × List FVal)
deriving DecidableEq

/-- Column lookup, first match wins (pandas `data[c]`, which raises
`KeyError` when absent — callers translate absence to their except
branch). -/
def lookupCol : List (String × List FVal) → String → Option (List FVal)
  | [], _ => none
  | (m, v) :: rest, n => if m = n then some v else lookupCol rest n

/-- Read a column of a DataFrame. -/
def getCol (df : DataFrame) (n : String) : Option (List FVal) :=
  lookupCol df.cols n

/-- Column assignment `data[n] = v`: replaces the column in place when
the name exists (keeping column order), appends it at the end otherwise
— exactly pandas item-assignment semantics. -/
def setColList : List (String × List FVal) → String → List FVal → List (String × List FVal)
  | [], n, v => [(n, v)]
  | (m, w) :: rest, n, v =>
      if m = n then (m, v) :: rest else (m, w) :: setColList rest n v

/-- DataFrame-level column assignment. -/
def setCol (df : DataFrame) (n : String) (v : List FVal) : DataFrame :=
  ⟨setColList df.cols n v⟩

lemma lookup_setColList_self (l : List (String × List FVal)) (n : String) (v : List FVal) :
    lookupCol (setColList l n v) n = some v := by
  induction l with
  | nil => simp [setColList, lookupCol]
  | cons p rest ih =>
    obtain ⟨m, w⟩ := p
    by_cases h : m = n
    · simp [setColList, h, lookupCol]
    · simp [setColList, h, lookupCol, ih]

lemma lookup_setColList_ne (l : List (String × List FVal)) (n c : String) (v : List FVal)
    (h : c ≠ n) : lookupCol (setColList l n v) c = lookupCol l c := by
  induction l with
  | nil => simp [setColList, lookupCol, Ne.symm h]
  | cons p rest ih =>
    obtain ⟨m, w⟩ := p
    by_cases hm : m = n
    · subst hm
      simp only [setColList, if_pos rfl, lookupCol, if_neg (Ne.symm h)]
    · simp only [setColList, if_neg hm, lookupCol]
      by_cases hc : m = c
      · rw [if_pos hc, if_pos hc]
      · rw [if_neg hc, if_neg hc, ih]

lemma setColList_of_fresh (l : List (String × List FVal)) (n : String) (v : List FVal)
    (h : ∀ p ∈ l, p.1 ≠ n) : setColList l n v = l ++ [(n, v)] := by
  induction l with
  | nil => simp [setColList]
  | cons p rest ih =>
    obtain ⟨m, w⟩ := p
    have hm : m ≠ n := h (m, w) (by simp)
    simp only [setColList, if_neg hm, List.cons_append]
    rw [ih (fun q hq => h q (by simp [hq]))]

/-- Pandas `Series.diff()`: NaN at position 0, then pairwise differences
(`close[t] - close[t-1]`, NaN-propagating). -/
def diff : List FVal → List FVal
  | [] => []
  | x :: xs => FVal.nan :: List.zipWith fsub xs (x :: xs)

/-- Pandas `Series.clip(lower=0)` on one cell. -/
def clipLower0 : FVal → FVal
  | FVal.nan => FVal.nan
  | FVal.inf => FVal.inf
  | FVal.ninf => FVal.fin 0
  | FVal.fin a => FVal.fin (max a 0)

/-- Pandas `Series.clip(upper=0)` on one cell. -/
def clipUpper0 : FVal → FVal
  | FVal.nan => FVal.nan
  | FVal.inf => FVal.fin 0
  | FVal.ninf => FVal.ninf
  | FVal.fin a => FVal.fin (min a 0)

/-- Pandas `Series.rolling(window=w).mean()` with the default
`min_periods` (equal to the window size): the entry at position `t` looks
at the trailing `min (w, t+1)` cells; if fewer than `w` of them are
non-NaN the entry is NaN, otherwise it is the mean of those observations.
In particular the entry is NaN whenever `t + 1 < w` (the warm-up gap),
and `window=0` produces an all-NaN series (pandas accepts 0 and every
empty window aggregates to NaN via the `0 / 0` mean below). -/
def rollEntry (xs : List FVal) (w t : ℕ) : FVal :=
  if (((xs.take (t + 1)).drop (t + 1 - w)).filter (fun x => x ≠ FVal.nan)).length < w
  then FVal.nan
  else
    fdiv (fsum (((xs.take (t + 1)).drop (t + 1 - w)).filter (fun x => x ≠ FVal.nan)))
      (FVal.fin (((((xs.take (t + 1)).drop (t + 1 - w)).filter (fun x => x ≠ FVal.nan)).length : ℚ)))

/-- The rolling mean series: one `rollEntry` per position. -/
def rollingMean (xs : List FVal) (w : ℕ) : List FVal :=
  (List.range xs.length).map (rollEntry xs w)

/-- Recursive part of `ewm(span, adjust=False).mean()`: given the
previous smoothed value, emit `alpha * x + (1 - alpha) * prev` for each
remaining cell.  (Pandas skips NaN observations when smoothing; this
model applies the recurrence uniformly with IEEE arithmetic.  The two
agree on every series without NaN cells, and the engine only ever feeds
the close-price column — finite by the PriceSeries invariant — and
series derived from it into `ewm`.) -/
def ewmAux (alpha : ℚ) : FVal → List FVal → List FVal
  | _, [] => []
  | prev, x :: xs =>
      fadd (fmul (FVal.fin alpha) x) (fmul (FVal.fin (1 - alpha)) prev) ::
        ewmAux alpha (fadd (fmul (FVal.fin alpha) x) (fmul (FVal.fin (1 - alpha)) prev)) xs

/-- Pandas `Series.ewm(span=span, adjust=False).mean()`: seeded at the
first cell, then the exponential recurrence with
`alpha = 2 / (span + 1)`. -/
def ewmMean (xs : List FVal) (span : ℕ) : List FVal :=
  match xs with
  | [] => []
  | x :: rest => x :: ewmAux (2 / ((span : ℚ) + 1)) x rest

/-- The non-NaN observations of a column (pandas aggregations skip NaN
by default). -/
def valids (xs : List FVal) : List FVal :=
  xs.filter (fun x => x ≠ FVal.nan)

/-- Pandas `Series.min()`: minimum of the non-NaN observations, NaN when
there are none. -/
def fmin2 : FVal → FVal → FVal
  | FVal.nan, _ => FVal.nan
  | _, FVal.nan => FVal.nan
  | FVal.ninf, _ => FVal.ninf
  | _, FVal.ninf => FVal.ninf
  | FVal.inf, b => b
  | a, FVal.inf => a
  | FVal.fin a, FVal.fin b => FVal.fin (min a b)

/-- Pandas `Series.max()` on two cells. -/
def fmax2 : FVal → FVal → FVal
  | FVal.nan, _ => FVal.nan
  | _, FVal.nan => FVal.nan
  | FVal.inf, _ => FVal.inf
  | _, FVal.inf => FVal.inf
  | FVal.ninf, b => b
  | a, FVal.ninf => a
  | FVal.fin a, FVal.fin b => FVal.fin (max a b)

/-- Pandas `Series.min()` over a column. -/
def pmin (xs : List FVal) : FVal :=
  match valids xs with
  | [] => FVal.nan
  | v :: vs => vs.foldl fmin2 v

/-- Pandas `Series.max()` over a column. -/
def pmax (xs : List FVal) : FVal :=
  match valids xs with
  | [] => FVal.nan
  | v :: vs => vs.foldl fmax2 v

/-- Pandas `Series.mean()`: sum of the valid observations over their
count; the empty case is the IEEE `0 / 0`, i.e. NaN. -/
def pmean (xs : List FVal) : FVal :=
  fdiv (fsum (valids xs)) (FVal.fin ((valids xs).length : ℚ))

/-- Pandas `Series.var(ddof)`: sample variance over the valid
observations; NaN when there are at most `ddof` of them (pandas obtains
the same NaN from the `0 / 0` or negative-count division). -/
def pvar (xs : List FVal) (ddof : ℕ) : FVal :=
  let vs := valids xs
  if vs.length ≤ ddof then FVal.nan
  else
    fdiv (fsum (vs.map (fun x => fmul (fsub x (pmean xs)) (fsub x (pmean xs)))))
      (FVal.fin (((vs.length : ℚ)) - (ddof : ℚ)))

/-- Python `round(x, 2)` rounds half to even; on our exact rationals
this is rounding `100 * x` to the nearest integer, ties to even.
`round(inf, 2)` is `inf` and `round(nan, 2)` is `nan`, as in Python. -/
def roundHalfEven (x : ℚ) : ℤ :=
  if x - Int.floor x < 1 / 2 then Int.floor x
  else if 1 / 2 < x - Int.floor x then Int.floor x + 1
  else if Even (Int.floor x) then Int.floor x else Int.floor x + 1

/-- Round a cell to two decimal places (Python `round(x, 2)`). -/
def round2 : FVal → FVal
  | FVal.nan => FVal.nan
  | FVal.inf => FVal.inf
  | FVal.ninf => FVal.ninf
  | FVal.fin q => FVal.fin ((roundHalfEven (q * 100) : ℚ) / 100)

/-- `add_moving_average(data, window_size)` from `data_download.py`.
The source assigns `data['Moving_Average'] = data['Close'].rolling(
window=window_size).mean()` on the caller's object and returns that same
object; the embedding returns the post-call state of `data`.  A `None`
input is returned as `None`.  When `rolling` raises (pandas rejects a
negative window with `ValueError`) or `data['Close']` raises `KeyError`,
the `except` branch prints a message and returns `data` unchanged. -/
def add_moving_average (data : Option DataFrame) (window_size : ℤ) : Option DataFrame :=
  match data with
  | none => none
  | some df =>
    if window_size < 0 then some df
    else
      match getCol df "Close" with
      | none => some df
      | some c => some (setCol df "Moving_Average" (rollingMean c window_size.toNat))

/-- Gain series of `calculate_rsi`: `delta.clip(lower=0)`. -/
def gains (c : List FVal) : List FVal :=
  (diff c).map clipLower0

/-- Loss series of `calculate_rsi`: `-delta.clip(upper=0)`. -/
def losses (c : List FVal) : List FVal :=
  (diff c).map (fun d => fneg (clipUpper0 d))

/-- `gain.rolling(window=periods).mean()` of `calculate_rsi`. -/
def avgGain (c : List FVal) (periods : ℕ) : List FVal :=
  rollingMean (gains c) periods

/-- `loss.rolling(window=periods).mean()` of `calculate_rsi`. -/
def avgLoss (c : List FVal) (periods : ℕ) : List FVal :=
  rollingMean (losses c) periods

/-- The RSI series computed from a close column:
`rs = avg_gain / avg_loss` elementwise, then
`rsi = 100 - 100 / (1 + rs)`. -/
def rsiSeries (c : List FVal) (periods : ℕ) : List FVal :=
  (List.zipWith fdiv (avgGain c periods) (avgLoss c periods)).map
    (fun rs => fsub (FVal.fin 100) (fdiv (FVal.fin 100) (fadd (FVal.fin 1) rs)))

/-- `calculate_rsi(data, periods)` from `data_download.py`: `None` when
`data` is `None` or lacks a `Close` column, otherwise the RSI series. -/
def calculate_rsi (data : Option DataFrame) (periods : ℕ) : Option (List FVal) :=
  match data with
  | none => none
  | some df =>
    match getCol df "Close" with
    | none => none
    | some c => some (rsiSeries c periods)

/-- `macd = exp1 - exp2` of `calculate_macd`: difference of the fast and
slow exponential moving averages of the close column. -/
def macdLine (c : List FVal) (fast slow : ℕ) : List FVal :=
  List.zipWith fsub (ewmMean c fast) (ewmMean c slow)

/-- `signal_line = macd.ewm(span=signal_period, adjust=False).mean()`. -/
def macdSignal (c : List FVal) (fast slow signal : ℕ) : List FVal :=
  ewmMean (macdLine c fast slow) signal

/-- `histogram = macd - signal_line`. -/
def macdHist (c : List FVal) (fast slow signal : ℕ) : List FVal :=
  List.zipWith fsub (macdLine c fast slow) (macdSignal c fast slow signal)

/-- `calculate_macd(data, fast_period, slow_period, signal_period)` from
`data_download.py`: `None` when `data` is `None` or lacks a `Close`
column, otherwise a fresh DataFrame with the `MACD`, `Signal_Line` and
`Histogram` columns. -/
def calculate_macd (data : Option DataFrame) (fast_period slow_period signal_period : ℕ) :
    Option DataFrame :=
  match data with
  | none => none
  | some df =>
    match getCol df "Close" with
    | none => none
    | some c =>
      some ⟨[("MACD", macdLine c fast_period slow_period),
             ("Signal_Line", macdSignal c fast_period slow_period signal_period),
             ("Histogram", macdHist c fast_period slow_period signal_period)]⟩

/-- Number of rows of a frame (the length of its shared index; all
columns of a pandas frame have this length). -/
def rowCount (df : DataFrame) : ℕ :=
  match df.cols with
  | [] => 0
  | (_, v) :: _ => v.length

/-- `add_technical_indicators(data, add_rsi, add_macd)` from
`data_download.py`.  The source copies the input
(`indicators_data = data.copy()`; the copy is the identity in the value
semantics of the embedding, and the original is untouched because column
assignment returns a new value), assigns the RSI series as an `RSI`
column on the copy (a `None` result of `calculate_rsi` assigns an
all-NaN column, as the pandas assignment of `None` does), and appends
the three MACD columns with `pd.concat(..., axis=1)` (pure column
concatenation on the shared index) when `calculate_macd` returned a
frame. -/
def add_technical_indicators (data : Option DataFrame) (add_rsi add_macd : Bool) :
    Option DataFrame :=
  match data with
  | none => none
  | some df =>
    let d1 : DataFrame :=
      if add_rsi then
        match calculate_rsi (some df) 14 with
        | some s => setCol df "RSI" s
        | none => setCol df "RSI" (List.replicate (rowCount df) FVal.nan)
      else df
    let d2 : DataFrame :=
      if add_macd then
        match calculate_macd (some df) 12 26 9 with
        | some mf => ⟨d1.cols ++ mf.cols⟩
        | none => d1
      else d1
    some d2

/-- The alert record built by `notify_if_strong_fluctuations`. -/
structure Fluct where
  ticker : String
  min_price : FVal
  max_price : FVal
  fluctuation_percent : FVal
deriving DecidableEq

/-- `notify_if_strong_fluctuations(data, ticker, threshold)` from
`data_download.py`: `None` when `data` is `None` or lacks a `Close`
column (the `KeyError` lands in the except branch); otherwise computes
`min`, `max`, `price_range_percent = ((max - min) / min) * 100` with
IEEE arithmetic — there is no guard on `min == 0` — and returns the
alert record exactly when `price_range_percent > threshold` (a NaN
comparison is false). -/
def notify_if_strong_fluctuations (data : Option DataFrame) (ticker : String)
    (threshold : ℚ) : Option Fluct :=
  match data with
  | none => none
  | some df =>
    match getCol df "Close" with
    | none => none
    | some cs =>
      let mn := pmin cs
      let mx := pmax cs
      let rp := fmul (fdiv (fsub mx mn) mn) (FVal.fin 100)
      if fgt rp (FVal.fin threshold) then
        some ⟨ticker, mn, mx, round2 rp⟩
      else none

/-- Cell domain for the statistics that apply a square root: the same
IEEE idealization as `FVal` but over the exact reals, since a standard
deviation of rational data is in general irrational. -/
inductive RVal where
  | nan : RVal
  | inf : RVal
  | ninf : RVal
  | fin : ℝ → RVal

/-- Inclusion of the rational cells into the real cells. -/
noncomputable def toR : FVal → RVal
  | FVal.nan => RVal.nan
  | FVal.inf => RVal.inf
  | FVal.ninf => RVal.ninf
  | FVal.fin q => RVal.fin (q : ℝ)

/-- IEEE square root: NaN for NaN and for negative arguments (numpy
`sqrt` of a negative is NaN), `inf` for `inf`. -/
noncomputable def RVal.sqrt : RVal → RVal
  | RVal.nan => RVal.nan
  | RVal.inf => RVal.inf
  | RVal.ninf => RVal.nan
  | RVal.fin r => if r < 0 then RVal.nan else RVal.fin (Real.sqrt r)

/-- IEEE multiplication over the real cells (mirror of `fmul`). -/
noncomputable def RVal.mul : RVal → RVal → RVal
  | RVal.nan, _ => RVal.nan
  | _, RVal.nan => RVal.nan
  | RVal.inf, RVal.inf => RVal.inf
  | RVal.inf, RVal.ninf => RVal.ninf
  | RVal.ninf, RVal.inf => RVal.ninf
  | RVal.ninf, RVal.ninf => RVal.inf
  | RVal.inf, RVal.fin b =>
      if 0 < b then RVal.inf else if b < 0 then RVal.ninf else RVal.nan
  | RVal.fin a, RVal.inf =>
      if 0 < a then RVal.inf else if a < 0 then RVal.ninf else RVal.nan
  | RVal.ninf, RVal.fin b =>
      if 0 < b then RVal.ninf else if b < 0 then RVal.inf else RVal.nan
  | RVal.fin a, RVal.ninf =>
      if 0 < a then RVal.ninf else if a < 0 then RVal.inf else RVal.nan
  | RVal.fin a, RVal.fin b => RVal.fin (a * b)

/-- IEEE division over the real cells (mirror of `fdiv`). -/
noncomputable def RVal.div : RVal → RVal → RVal
  | RVal.nan, _ => RVal.nan
  | _, RVal.nan => RVal.nan
  | RVal.inf, RVal.inf => RVal.nan
  | RVal.inf, RVal.ninf => RVal.nan
  | RVal.ninf, RVal.inf => RVal.nan
  | RVal.ninf, RVal.ninf => RVal.nan
  | RVal.inf, RVal.fin b => if b < 0 then RVal.ninf else RVal.inf
  | RVal.ninf, RVal.fin b => if b < 0 then RVal.inf else RVal.ninf
  | RVal.fin _, RVal.inf => RVal.fin 0
  | RVal.fin _, RVal.ninf => RVal.fin 0
  | RVal.fin a, RVal.fin b =>
      if b = 0 then
        (if a = 0 then RVal.nan else if 0 < a then RVal.inf else RVal.ninf)
      else RVal.fin (a / b)

/-- Pandas `Series.std(ddof)`: the square root of the sample
variance. -/
noncomputable def pstd (xs : List FVal) (ddof : ℕ) : RVal :=
  RVal.sqrt (toR (pvar xs ddof))

/-- The record built by `calculate_standard_deviation` (its `stats`
dictionary, in source order). -/
structure Stats where
  std_deviation : RVal
  variance : FVal
  min_price : FVal
  max_price : FVal
  price_range : FVal
  coefficient_variation : RVal

/-- `calculate_standard_deviation(data, column)` from
`data_download.py`.  The only way into the except branch is a missing
column (`KeyError`) or a `None` frame (`TypeError`); otherwise every
field is computed with IEEE arithmetic and the record is returned —
there is no guard on an empty column or a zero mean, the division
`std / mean` simply follows IEEE rules.  `std_deviation` and `variance`
use `ddof=1` explicitly and the `std()` inside the coefficient of
variation uses the pandas default, which is also `ddof=1`. -/
noncomputable def calculate_standard_deviation (data : Option DataFrame) (column : String) :
    Option Stats :=
  match data with
  | none => none
  | some df =>
    match getCol df column with
    | none => none
    | some xs =>
      some ⟨pstd xs 1, pvar xs 1, pmin xs, pmax xs, fsub (pmax xs) (pmin xs),
        RVal.mul (RVal.div (pstd xs 1) (toR (pmean xs))) (RVal.fin 100)⟩

/-- Pandas `Series.pct_change()`: NaN at position 0, then
`(x[t] - x[t-1]) / x[t-1]`.  (The pandas default forward-fills NaN cells
before differencing; that only matters on series with NaN cells, which
the engine never feeds here — the input is the close column, finite by
the PriceSeries invariant.) -/
def pctChange : List FVal → List FVal
  | [] => []
  | x :: xs =>
      FVal.nan :: List.zipWith (fun cur prev => fdiv (fsub cur prev) prev) xs (x :: xs)

/-- The record built by `advanced_price_analysis` (the merged
`volatility_stats` and `trend_stats` dictionaries, in source order). -/
structure Trend where
  mean_daily_return : FVal
  daily_volatility : RVal
  annualized_volatility : RVal
  start_price : FVal
  end_price : FVal
  total_return_percent : FVal

/-- `advanced_price_analysis(data)` from `data_download.py`:
daily returns via `pct_change()`, their mean and sample standard
deviation, the annualized volatility `std * sqrt(252)`, and the trend
fields from the first and last close.  A `None` frame or missing `Close`
column raises into the except branch (`None`); an empty close column
raises `IndexError` at `iloc[0]`, also landing in the except branch. -/
noncomputable def advanced_price_analysis (data : Option DataFrame) : Option Trend :=
  match data with
  | none => none
  | some df =>
    match getCol df "Close" with
    | none => none
    | some [] => none
    | some (x :: xs) =>
      let rets := pctChange (x :: xs)
      let lastClose := (x :: xs).getLast (List.cons_ne_nil x xs)
      some ⟨pmean rets,
            pstd rets 1,
            RVal.mul (pstd rets 1) (RVal.fin (Real.sqrt 252)),
            x,
            lastClose,
            fmul (fdiv (fsub lastClose x) x) (FVal.fin 100)⟩

lemma getq_map {α β : Type} (f : α → β) : ∀ (l : List α) (n : ℕ),
    (l.map f).get? n = Option.map f (l.get? n) := by
  intro l
  induction l with
  | nil => intro n; cases n <;> rfl
  | cons x xs ih => intro n; cases n with
    | zero => rfl
    | succ m => simpa using ih m

lemma getq_zipWith_of {α β γ : Type} (f : α → β → γ) :
    ∀ (as : List α) (bs : List β) (t : ℕ) (a : α) (b : β),
      as.get? t = some a → bs.get? t = some b →
      (List.zipWith f as bs).get? t = some (f a b) := by
  intro as
  induction as with
  | nil => intro bs t a b h; simp [List.get?] at h
  | cons x xs ih =>
    intro bs t a b ha hb
    cases bs with
    | nil => simp [List.get?] at hb
    | cons y ys =>
      cases t with
      | zero =>
        simp only [List.get?] at ha hb
        cases ha; cases hb; rfl
      | succ m =>
        simp only [List.get?] at ha hb
        simpa using ih ys m a b ha hb

lemma mem_zipWith_ex {α β γ : Type} (f : α → β → γ) :
    ∀ (as : List α) (bs : List β) (c : γ), c ∈ List.zipWith f as bs →
      ∃ a b, a ∈ as ∧ b ∈ bs ∧ c = f a b := by
  intro as
  induction as with
  | nil => intro bs c h; simp at h
  | cons x xs ih =>
    intro bs c h
    cases bs with
    | nil => simp at h
    | cons y ys =>
      simp only [List.zipWith, List.mem_cons] at h
      rcases h with h | h
      · exact ⟨x, y, by simp, by simp, h⟩
      · obtain ⟨a, b, ha, hb, hc⟩ := ih ys c h
        exact ⟨a, b, by simp [ha], by simp [hb], hc⟩

lemma valids_map_fin (l : List ℚ) :
    (l.map FVal.fin).filter (fun x => x ≠ FVal.nan) = l.map FVal.fin := by
  induction l with
  | nil => rfl
  | cons x xs ih => simp [List.filter, ih]

lemma fsum_map_fin (l : List ℚ) : fsum (l.map FVal.fin) = FVal.fin l.sum := by
  induction l with
  | nil => rfl
  | cons x xs ih => simp [fsum, List.foldr] at ih ⊢; rw [ih]; simp

lemma diff_length (c : List FVal) : (diff c).length = c.length := by
  cases c with
  | nil => rfl
  | cons x xs => simp [diff, Nat.min_eq_left (Nat.le_succ xs.length)]

lemma rollingMean_length (xs : List FVal) (w : ℕ) :
    (rollingMean xs w).length = xs.length := by
  simp [rollingMean]

lemma rollingMean_get (xs : List FVal) (w t : ℕ) (ht : t < xs.length) :
    (rollingMean xs w).get? t = some (rollEntry xs w t) := by
  rw [rollingMean, getq_map, List.get?_range ht]
  rfl

lemma rollEntry_warmup (xs : List FVal) (w t : ℕ) (hlt : t + 1 < w) :
    rollEntry xs w t = FVal.nan := by
  have hwin : ((xs.take (t + 1)).drop (t + 1 - w)).length ≤ t + 1 := by
    simp only [List.length_drop, List.length_take]
    omega
  have hvs := List.length_filter_le (fun x => x ≠ FVal.nan) ((xs.take (t + 1)).drop (t + 1 - w))
  rw [rollEntry, if_pos (by omega)]

lemma rollEntry_fin (qs : List ℚ) (w t : ℕ) (hw : 1 ≤ w) (hwt : w ≤ t + 1)
    (ht : t < qs.length) :
    rollEntry (qs.map FVal.fin) w t =
      FVal.fin ((((qs.take (t + 1)).drop (t + 1 - w)).sum) / (w : ℚ)) := by
  have hslice : ((qs.map FVal.fin).take (t + 1)).drop (t + 1 - w) =
      ((qs.take (t + 1)).drop (t + 1 - w)).map FVal.fin := by
    rw [List.map_drop, List.map_take]
  have hlen : ((qs.take (t + 1)).drop (t + 1 - w)).length = w := by
    simp only [List.length_drop, List.length_take]
    omega
  rw [rollEntry, hslice, valids_map_fin, fsum_map_fin, List.length_map, hlen]
  rw [if_neg (lt_irrefl w)]
  exact fdiv_fin_of_ne _ _ (by exact_mod_cast Nat.one_le_iff_ne_zero.mp hw)

/-- Rational-valued counterpart of the EMA recurrence, transcribed from
the specification's words for the refinement comparison of the MACD
claim: `ema[t] = alpha*close[t] + (1-alpha)*ema[t-1]`. -/
def emaAux (alpha : ℚ) : ℚ → List ℚ → List ℚ
  | _, [] => []
  | prev, x :: xs =>
      (alpha * x + (1 - alpha) * prev) :: emaAux alpha (alpha * x + (1 - alpha) * prev) xs

/-- Rational-valued EMA, seeded at the first value (`ema[0] = close[0]`),
transcribed from the specification for the refinement comparison. -/
def emaSpec (alpha : ℚ) : List ℚ → List ℚ
  | [] => []
  | x :: xs => x :: emaAux alpha x xs

/-- Rational-valued MACD line per the specification:
fast EMA minus slow EMA, with `alpha = 2/(span+1)`. -/
def macdSpecM (qs : List ℚ) (fast slow : ℕ) : List ℚ :=
  List.zipWith (fun a b => a - b) (emaSpec (2 / ((fast : ℚ) + 1)) qs)
    (emaSpec (2 / ((slow : ℚ) + 1)) qs)

/-- Rational-valued signal line per the specification: EMA of the MACD
line. -/
def macdSpecS (qs : List ℚ) (fast slow signal : ℕ) : List ℚ :=
  emaSpec (2 / ((signal : ℚ) + 1)) (macdSpecM qs fast slow)

/-- Rational-valued histogram per the specification: MACD line minus
signal line. -/
def macdSpecH (qs : List ℚ) (fast slow signal : ℕ) : List ℚ :=
  List.zipWith (fun a b => a - b) (macdSpecM qs fast slow) (macdSpecS qs fast slow signal)

lemma ewmAux_map_fin (alpha : ℚ) (l : List ℚ) : ∀ p : ℚ,
    ewmAux alpha (FVal.fin p) (l.map FVal.fin) = (emaAux alpha p l).map FVal.fin := by
  induction l with
  | nil => intro p; rfl
  | cons x xs ih =>
    intro p
    simp only [List.map, ewmAux, emaAux, fmul_fin, fadd_fin, ih]

lemma ewmMean_map_fin (qs : List ℚ) (span : ℕ) :
    ewmMean (qs.map FVal.fin) span = (emaSpec (2 / ((span : ℚ) + 1)) qs).map FVal.fin := by
  cases qs with
  | nil => rfl
  | cons x xs => simp only [List.map, ewmMean, emaSpec, ewmAux_map_fin]

lemma emaAux_length (alpha : ℚ) (l : List ℚ) : ∀ p : ℚ, (emaAux alpha p l).length = l.length := by
  induction l with
  | nil => intro p; rfl
  | cons x xs ih => intro p; simp only [emaAux, List.length_cons, ih]

lemma emaSpec_length (alpha : ℚ) (qs : List ℚ) : (emaSpec alpha qs).length = qs.length := by
  cases qs with
  | nil => rfl
  | cons x xs => simp only [emaSpec, List.length_cons, emaAux_length]

lemma zipWith_sub_map_fin (as : List ℚ) : ∀ bs : List ℚ,
    List.zipWith fsub (as.map FVal.fin) (bs.map FVal.fin) =
      (List.zipWith (fun a b => a - b) as bs).map FVal.fin := by
  induction as with
  | nil => intro bs; rfl
  | cons x xs ih =>
    intro bs
    cases bs with
    | nil => rfl
    | cons y ys => simp only [List.map, List.zipWith, fsub_fin, ih]

lemma macdLine_map_fin (qs : List ℚ) (fast slow : ℕ) :
    macdLine (qs.map FVal.fin) fast slow = (macdSpecM qs fast slow).map FVal.fin := by
  rw [macdLine, ewmMean_map_fin, ewmMean_map_fin, zipWith_sub_map_fin, macdSpecM]

lemma macdSignal_map_fin (qs : List ℚ) (fast slow signal : ℕ) :
    macdSignal (qs.map FVal.fin) fast slow signal =
      (macdSpecS qs fast slow signal).map FVal.fin := by
  rw [macdSignal, macdLine_map_fin, ewmMean_map_fin, macdSpecS]

lemma macdHist_map_fin (qs : List ℚ) (fast slow signal : ℕ) :
    macdHist (qs.map FVal.fin) fast slow signal =
      (macdSpecH qs fast slow signal).map FVal.fin := by
  rw [macdHist, macdLine_map_fin, macdSignal_map_fin, zipWith_sub_map_fin, macdSpecH]

/-- Claim C1 (counterexample): the moving-average transform does mutate
the input frame in place — after the call the caller's object carries an
extra `Moving_Average` column, so its contents are not equal to their
contents before the call. -/
theorem c1_moving_average_mutates :
    add_moving_average (some ⟨[("Close", [FVal.fin 1, FVal.fin 2])]⟩) 2 ≠
      some ⟨[("Close", [FVal.fin 1, FVal.fin 2])]⟩ := by
  decide

/-- Claim C1 (amended): the moving-average transform only ever touches
the `Moving_Average` column of its input: every other column of the
caller's object is unchanged after the call (the remaining transforms
never assign into their input at all, and so are embedded as pure
functions of it). -/
theorem c1_add_moving_average_preserves_other_columns (df : DataFrame) (w : ℤ) (c : String)
    (hc : c ≠ "Moving_Average") :
    ∃ d, add_moving_average (some df) w = some d ∧ getCol d c = getCol df c := by
  by_cases hw : w < 0
  · exact ⟨df, by simp [add_moving_average, hw], rfl⟩
  · cases hcl : getCol df "Close" with
    | none => exact ⟨df, by simp [add_moving_average, hw, hcl], rfl⟩
    | some c0 =>
      refine ⟨setCol df "Moving_Average" (rollingMean c0 w.toNat),
        by simp [add_moving_average, hw, hcl], ?_⟩
      exact lookup_setColList_ne df.cols "Moving_Average" c _ hc

/-- Witness for the amended C1 theorem at a concrete frame. -/
theorem c1_preserves_witness :
    ∃ d, add_moving_average (some ⟨[("Close", [FVal.fin 1])]⟩) 1 = some d ∧
      getCol d "Close" = getCol ⟨[("Close", [FVal.fin 1])]⟩ "Close" :=
  c1_add_moving_average_preserves_other_columns ⟨[("Close", [FVal.fin 1])]⟩ 1 "Close" (by decide)

/-- Claim C8 (counterexample): on a negative window the transform does
not reject with a failure signal — the pandas `ValueError` is caught and
the input frame itself is handed back to the caller as the return value,
indistinguishable from a success except for the missing column. -/
theorem c8_negative_window_returns_data :
    add_moving_average (some ⟨[("Close", [FVal.fin 3, FVal.fin 4])]⟩) (-1) =
      some ⟨[("Close", [FVal.fin 3, FVal.fin 4])]⟩ := by
  decide

/-- Claim C8 (amended): for every negative window the internal error is
caught and the input is returned unchanged (no `Moving_Average` column,
no `None`); the computation is not performed, but no failure value
reaches the caller either. -/
theorem c8_negative_window_no_failure_signal (df : DataFrame) (w : ℤ) (hw : w < 0) :
    add_moving_average (some df) w = some df := by
  simp [add_moving_average, hw]

/-- Witness for the amended C8 theorem at a concrete frame. -/
theorem c8_no_failure_witness :
    add_moving_average (some ⟨[("Close", [FVal.fin 5])]⟩) (-3) = some ⟨[("Close", [FVal.fin 5])]⟩ :=
  c8_negative_window_no_failure_signal ⟨[("Close", [FVal.fin 5])]⟩ (-3) (by decide)

/-- Claim C2: for a close column of length `L` and a window `1 ≤ w ≤ L`
the moving-average column has length `L`, is NaN at every position
`t < w - 1`, and at every position `t ≥ w - 1` equals the arithmetic
mean of the trailing `w` close prices ending at `t` inclusive — in
particular at `t = w - 1` it is the mean of the first `w` closes. -/
theorem c2_moving_average_correct (df : DataFrame) (qs : List ℚ) (w : ℕ)
    (hw : 1 ≤ w) (hwL : w ≤ qs.length)
    (hc : getCol df "Close" = some (qs.map FVal.fin)) :
    ∃ d ma, add_moving_average (some df) (w : ℤ) = some d ∧
      getCol d "Moving_Average" = some ma ∧
      ma.length = qs.length ∧
      (∀ t, t + 1 < w → ma.get? t = some FVal.nan) ∧
      (∀ t, w ≤ t + 1 → t < qs.length →
        ma.get? t = some (FVal.fin ((((qs.take (t + 1)).drop (t + 1 - w)).sum) / (w : ℚ)))) ∧
      ma.get? (w - 1) = some (FVal.fin ((qs.take w).sum / (w : ℚ))) := by
  have hneg : ¬ ((w : ℤ) < 0) := not_lt.mpr (Int.natCast_nonneg w)
  have htn : (w : ℤ).toNat = w := Int.toNat_natCast w
  refine ⟨setCol df "Moving_Average" (rollingMean (qs.map FVal.fin) w),
    rollingMean (qs.map FVal.fin) w,
    by simp [add_moving_average, hneg, hc, htn], ?_, ?_, ?_, ?_, ?_⟩
  · exact lookup_setColList_self df.cols "Moving_Average" _
  · rw [rollingMean_length, List.length_map]
  · intro t hlt
    have ht : t < (qs.map FVal.fin).length := by
      rw [List.length_map]; omega
    rw [rollingMean_get _ _ _ ht, rollEntry_warmup _ _ _ hlt]
  · intro t hge ht
    have htm : t < (qs.map FVal.fin).length := by rw [List.length_map]; exact ht
    rw [rollingMean_get _ _ _ htm, rollEntry_fin qs w t hw hge ht]
  · have h1 : w - 1 + 1 = w := by omega
    have h2 : w - 1 < (qs.map FVal.fin).length := by rw [List.length_map]; omega
    rw [rollingMean_get _ _ _ h2, rollEntry_fin qs w (w - 1) hw (by omega) (by omega)]
    rw [h1, Nat.sub_self, List.drop_zero]

/-- Witness for the C2 theorem at a concrete frame and window. -/
theorem c2_moving_average_witness :
    ∃ d ma,
      add_moving_average (some ⟨[("Close", [FVal.fin 1, FVal.fin 2, FVal.fin 3])]⟩) ((2 : ℕ) : ℤ) =
        some d ∧
      getCol d "Moving_Average" = some ma ∧
      ma.length = ([1, 2, 3] : List ℚ).length ∧
      (∀ t, t + 1 < 2 → ma.get? t = some FVal.nan) ∧
      (∀ t, 2 ≤ t + 1 → t < ([1, 2, 3] : List ℚ).length →
        ma.get? t =
          some (FVal.fin (((([1, 2, 3] : List ℚ).take (t + 1)).drop (t + 1 - 2)).sum / ((2 : ℕ) : ℚ)))) ∧
      ma.get? (2 - 1) = some (FVal.fin ((([1, 2, 3] : List ℚ).take 2).sum / ((2 : ℕ) : ℚ))) :=
  c2_moving_average_correct ⟨[("Close", [FVal.fin 1, FVal.fin 2, FVal.fin 3])]⟩ [1, 2, 3] 2
    (by decide) (by decide) rfl

/-- Claim C4: on a finite non-empty close column the MACD frame exists
and its three columns are exactly the rational EMA recurrence composed
as the specification prescribes — every entry is a finite value (no
warm-up gap), all three columns have the input's length, and the
histogram entry is the MACD entry minus the signal entry at every
position. -/
theorem c4_macd_fully_defined (df : DataFrame) (qs : List ℚ) (hne : qs ≠ [])
    (hc : getCol df "Close" = some (qs.map FVal.fin)) :
    ∃ mf, calculate_macd (some df) 12 26 9 = some mf ∧
      getCol mf "MACD" = some ((macdSpecM qs 12 26).map FVal.fin) ∧
      getCol mf "Signal_Line" = some ((macdSpecS qs 12 26 9).map FVal.fin) ∧
      getCol mf "Histogram" = some ((macdSpecH qs 12 26 9).map FVal.fin) ∧
      (macdSpecM qs 12 26).length = qs.length ∧
      (macdSpecS qs 12 26 9).length = qs.length ∧
      (macdSpecH qs 12 26 9).length = qs.length ∧
      ∀ t a b, (macdSpecM qs 12 26).get? t = some a →
        (macdSpecS qs 12 26 9).get? t = some b →
        (macdSpecH qs 12 26 9).get? t = some (a - b) := by
  have hM : (macdSpecM qs 12 26).length = qs.length := by
    rw [macdSpecM, List.length_zipWith, emaSpec_length, emaSpec_length, min_self]
  have hS : (macdSpecS qs 12 26 9).length = qs.length := by
    rw [macdSpecS, emaSpec_length, hM]
  have hH : (macdSpecH qs 12 26 9).length = qs.length := by
    rw [macdSpecH, List.length_zipWith, hM, hS, min_self]
  refine ⟨⟨[("MACD", macdLine (qs.map FVal.fin) 12 26),
           ("Signal_Line", macdSignal (qs.map FVal.fin) 12 26 9),
           ("Histogram", macdHist (qs.map FVal.fin) 12 26 9)]⟩,
    by simp [calculate_macd, hc], ?_, ?_, ?_, hM, hS, hH, ?_⟩
  · show lookupCol _ "MACD" = _
    rw [lookupCol, if_pos rfl, macdLine_map_fin]
  · show lookupCol _ "Signal_Line" = _
    rw [lookupCol, if_neg (by decide), lookupCol, if_pos rfl, macdSignal_map_fin]
  · show lookupCol _ "Histogram" = _
    rw [lookupCol, if_neg (by decide), lookupCol, if_neg (by decide), lookupCol, if_pos rfl,
      macdHist_map_fin]
  · intro t a b ha hb
    exact getq_zipWith_of (fun a b => a - b) _ _ t a b ha hb

/-- Witness for the C4 theorem at a concrete two-bar frame. -/
theorem c4_macd_witness :
    ∃ mf, calculate_macd (some ⟨[("Close", [FVal.fin 1, FVal.fin 2])]⟩) 12 26 9 = some mf ∧
      getCol mf "MACD" = some ((macdSpecM [1, 2] 12 26).map FVal.fin) ∧
      getCol mf "Signal_Line" = some ((macdSpecS [1, 2] 12 26 9).map FVal.fin) ∧
      getCol mf "Histogram" = some ((macdSpecH [1, 2] 12 26 9).map FVal.fin) ∧
      (macdSpecM [1, 2] 12 26).length = ([1, 2] : List ℚ).length ∧
      (macdSpecS [1, 2] 12 26 9).length = ([1, 2] : List ℚ).length ∧
      (macdSpecH [1, 2] 12 26 9).length = ([1, 2] : List ℚ).length ∧
      ∀ t a b, (macdSpecM [1, 2] 12 26).get? t = some a →
        (macdSpecS [1, 2] 12 26 9).get? t = some b →
        (macdSpecH [1, 2] 12 26 9).get? t = some (a - b) :=
  c4_macd_fully_defined ⟨[("Close", [FVal.fin 1, FVal.fin 2])]⟩ [1, 2] (by decide) rfl

lemma fadd_nan_left (b : FVal) : fadd FVal.nan b = FVal.nan := by cases b <;> rfl

lemma fadd_fin_nan (a : ℚ) : fadd (FVal.fin a) FVal.nan = FVal.nan := rfl

lemma fadd_fin_inf (a : ℚ) : fadd (FVal.fin a) FVal.inf = FVal.inf := rfl

lemma fdiv_nan_left (b : FVal) : fdiv FVal.nan b = FVal.nan := by cases b <;> rfl

lemma fdiv_fin_nan (a : ℚ) : fdiv (FVal.fin a) FVal.nan = FVal.nan := rfl

lemma fdiv_fin_inf (a : ℚ) : fdiv (FVal.fin a) FVal.inf = FVal.fin 0 := rfl

lemma fdiv_inf_fin (b : ℚ) :
    fdiv FVal.inf (FVal.fin b) = if b < 0 then FVal.ninf else FVal.inf := rfl

lemma fsub_fin_nan (a : ℚ) : fsub (FVal.fin a) FVal.nan = FVal.nan := rfl

/-- Cells that a gain/loss series can hold: NaN, `inf`, or a nonnegative
finite value. -/
def NNF (x : FVal) : Prop :=
  x = FVal.nan ∨ x = FVal.inf ∨ ∃ q, x = FVal.fin q ∧ 0 ≤ q

/-- The non-NaN part of `NNF`. -/
def PosF (x : FVal) : Prop :=
  x = FVal.inf ∨ ∃ q, x = FVal.fin q ∧ 0 ≤ q

lemma gains_NNF (c : List FVal) : ∀ x ∈ gains c, NNF x := by
  intro x hx
  rw [gains] at hx
  obtain ⟨d, _, rfl⟩ := List.mem_map.mp hx
  cases d with
  | nan => exact Or.inl rfl
  | inf => exact Or.inr (Or.inl rfl)
  | ninf => exact Or.inr (Or.inr ⟨0, rfl, le_refl 0⟩)
  | fin a => exact Or.inr (Or.inr ⟨max a 0, rfl, le_max_right a 0⟩)

lemma losses_NNF (c : List FVal) : ∀ x ∈ losses c, NNF x := by
  intro x hx
  rw [losses] at hx
  obtain ⟨d, _, rfl⟩ := List.mem_map.mp hx
  cases d with
  | nan => exact Or.inl rfl
  | inf => exact Or.inr (Or.inr ⟨-0, rfl, by norm_num⟩)
  | ninf => exact Or.inr (Or.inl rfl)
  | fin a =>
    exact Or.inr (Or.inr ⟨-(min a 0), rfl, neg_nonneg.mpr (min_le_right a 0)⟩)

lemma fadd_PosF {a b : FVal} (ha : PosF a) (hb : PosF b) : PosF (fadd a b) := by
  rcases ha with rfl | ⟨p, rfl, hp⟩ <;> rcases hb with rfl | ⟨q, rfl, hq⟩
  · exact Or.inl rfl
  · exact Or.inl rfl
  · exact Or.inl rfl
  · exact Or.inr ⟨p + q, rfl, add_nonneg hp hq⟩

lemma fsum_PosF (l : List FVal) (h : ∀ x ∈ l, PosF x) : PosF (fsum l) := by
  induction l with
  | nil => exact Or.inr ⟨0, rfl, le_refl 0⟩
  | cons x xs ih =>
    exact fadd_PosF (h x (by simp)) (ih (fun y hy => h y (by simp [hy])))

lemma rollEntry_NNF (xs : List FVal) (w t : ℕ) (h : ∀ x ∈ xs, NNF x) :
    NNF (rollEntry xs w t) := by
  rw [rollEntry]
  split
  · exact Or.inl rfl
  · have hvs : ∀ x ∈ ((xs.take (t + 1)).drop (t + 1 - w)).filter (fun x => x ≠ FVal.nan),
        PosF x := by
      intro x hx
      have hmem := List.mem_filter.mp hx
      have hxs : x ∈ xs := List.mem_of_mem_take (List.mem_of_mem_drop hmem.1)
      have hne : x ≠ FVal.nan := of_decide_eq_true hmem.2
      rcases h x hxs with h0 | h0 | h0
      · exact absurd h0 hne
      · exact Or.inl h0
      · exact Or.inr h0
    rcases hn : (((xs.take (t + 1)).drop (t + 1 - w)).filter (fun x => x ≠ FVal.nan)).length with
      _ | n
    · have hempty : ((xs.take (t + 1)).drop (t + 1 - w)).filter (fun x => x ≠ FVal.nan) = [] :=
        List.length_eq_zero.mp hn
      rw [hempty]
      exact Or.inl rfl
    · have hpos : (0 : ℚ) < ((n + 1 : ℕ) : ℚ) := by exact_mod_cast Nat.succ_pos n
      rcases fsum_PosF _ hvs with hs | ⟨a, hs, hanneg⟩
      · rw [hs, fdiv_inf_fin, if_neg (not_lt.mpr hpos.le)]
        exact Or.inr (Or.inl rfl)
      · rw [hs, fdiv_fin_of_ne _ _ (ne_of_gt hpos)]
        exact Or.inr (Or.inr ⟨_, rfl, div_nonneg hanneg hpos.le⟩)

lemma rollingMean_NNF (xs : List FVal) (w : ℕ) (h : ∀ x ∈ xs, NNF x) :
    ∀ y ∈ rollingMean xs w, NNF y := by
  intro y hy
  rw [rollingMean] at hy
  obtain ⟨t, _, rfl⟩ := List.mem_map.mp hy
  exact rollEntry_NNF xs w t h

lemma fdiv_NNF {a b : FVal} (ha : NNF a) (hb : NNF b) : NNF (fdiv a b) := by
  rcases ha with rfl | rfl | ⟨p, rfl, hp⟩ <;> rcases hb with rfl | rfl | ⟨q, rfl, hq⟩
  · exact Or.inl rfl
  · exact Or.inl rfl
  · exact Or.inl rfl
  · exact Or.inl rfl
  · exact Or.inl rfl
  · rw [fdiv_inf_fin, if_neg (not_lt.mpr hq)]
    exact Or.inr (Or.inl rfl)
  · exact Or.inl rfl
  · exact Or.inr (Or.inr ⟨0, rfl, le_refl 0⟩)
  · by_cases hq0 : q = 0
    · subst hq0
      rw [fdiv_fin, if_pos rfl]
      by_cases hp0 : p = 0
      · rw [if_pos hp0]; exact Or.inl rfl
      · rw [if_neg hp0, if_pos (lt_of_le_of_ne hp (Ne.symm hp0))]
        exact Or.inr (Or.inl rfl)
    · rw [fdiv_fin_of_ne _ _ hq0]
      exact Or.inr (Or.inr ⟨_, rfl, div_nonneg hp (lt_of_le_of_ne hq (Ne.symm hq0)).le⟩)

lemma rsiVal_cases (r : FVal) (h : NNF r) :
    fsub (FVal.fin 100) (fdiv (FVal.fin 100) (fadd (FVal.fin 1) r)) = FVal.nan ∨
    ∃ q, fsub (FVal.fin 100) (fdiv (FVal.fin 100) (fadd (FVal.fin 1) r)) = FVal.fin q ∧
      0 ≤ q ∧ q ≤ 100 := by
  rcases h with rfl | rfl | ⟨q, rfl, hq⟩
  · rw [fadd_fin_nan, fdiv_fin_nan, fsub_fin_nan]
    exact Or.inl rfl
  · rw [fadd_fin_inf, fdiv_fin_inf, fsub_fin]
    exact Or.inr ⟨100, by norm_num, by norm_num, le_refl 100⟩
  · rw [fadd_fin]
    have h1 : (0 : ℚ) < 1 + q := by linarith
    rw [fdiv_fin_of_ne _ _ (ne_of_gt h1), fsub_fin]
    refine Or.inr ⟨_, rfl, ?_, ?_⟩
    · have : 100 / (1 + q) ≤ 100 := div_le_self (by norm_num) (by linarith)
      linarith
    · have : 0 ≤ 100 / (1 + q) := div_nonneg (by norm_num) h1.le
      linarith

/-- Claim C3: for every frame with a `Close` column and every period
count the RSI series exists, has the column's length, every finite
entry lies in `[0, 100]`, and at every position where the trailing
average loss is exactly `0` while the average gain is strictly positive
the RSI entry is exactly `100` (not NaN) — the IEEE evaluation
`100 - 100/(1 + gain/0) = 100 - 100/inf = 100` is what the source
computes there. -/
theorem c3_rsi_bounded (df : DataFrame) (c : List FVal) (p : ℕ)
    (hc : getCol df "Close" = some c) :
    ∃ r, calculate_rsi (some df) p = some r ∧ r.length = c.length ∧
      (∀ v ∈ r, ∀ q, v = FVal.fin q → 0 ≤ q ∧ q ≤ 100) ∧
      (∀ t g, (avgGain c p).get? t = some (FVal.fin g) → 0 < g →
        (avgLoss c p).get? t = some (FVal.fin 0) →
        r.get? t = some (FVal.fin 100)) := by
  refine ⟨rsiSeries c p, by simp [calculate_rsi, hc], ?_, ?_, ?_⟩
  · simp [rsiSeries, avgGain, avgLoss, rollingMean_length, gains, losses, diff_length]
  · intro v hv q hq
    rw [rsiSeries] at hv
    obtain ⟨rs, hrs, rfl⟩ := List.mem_map.mp hv
    obtain ⟨a, b, ha, hb, rfl⟩ := mem_zipWith_ex fdiv _ _ rs hrs
    rw [avgGain] at ha
    rw [avgLoss] at hb
    have hA : NNF a := rollingMean_NNF _ _ (gains_NNF c) a ha
    have hB : NNF b := rollingMean_NNF _ _ (losses_NNF c) b hb
    rcases rsiVal_cases (fdiv a b) (fdiv_NNF hA hB) with h | ⟨q2, he, h0, h1⟩
    · rw [hq] at h
      exact absurd h (by simp)
    · rw [hq] at he
      injection he with he2
      rw [← he2] at h0 h1
      exact ⟨h0, h1⟩
  · intro t g hg hgpos hl
    have hrs : (List.zipWith fdiv (avgGain c p) (avgLoss c p)).get? t =
        some (fdiv (FVal.fin g) (FVal.fin 0)) :=
      getq_zipWith_of fdiv _ _ t _ _ hg hl
    have hdiv : fdiv (FVal.fin g) (FVal.fin 0) = FVal.inf := by
      rw [fdiv_fin, if_pos rfl, if_neg (ne_of_gt hgpos), if_pos hgpos]
    rw [rsiSeries, getq_map, hrs, hdiv, Option.map_some']
    rw [fadd_fin_inf, fdiv_fin_inf, fsub_fin]
    norm_num

/-- Witness for the C3 theorem at a concrete two-bar frame with one
period (where the rising close makes the average loss exactly zero at
the second position). -/
theorem c3_rsi_witness :
    ∃ r, calculate_rsi (some ⟨[("Close", [FVal.fin 1, FVal.fin 2])]⟩) 1 = some r ∧
      r.length = ([FVal.fin 1, FVal.fin 2] : List FVal).length ∧
      (∀ v ∈ r, ∀ q, v = FVal.fin q → 0 ≤ q ∧ q ≤ 100) ∧
      (∀ t g, (avgGain [FVal.fin 1, FVal.fin 2] 1).get? t = some (FVal.fin g) → 0 < g →
        (avgLoss [FVal.fin 1, FVal.fin 2] 1).get? t = some (FVal.fin 0) →
        r.get? t = some (FVal.fin 100)) :=
  c3_rsi_bounded ⟨[("Close", [FVal.fin 1, FVal.fin 2])]⟩ [FVal.fin 1, FVal.fin 2] 1 rfl

lemma fmul_inf_fin (b : ℚ) :
    fmul FVal.inf (FVal.fin b) =
      if 0 < b then FVal.inf else if b < 0 then FVal.ninf else FVal.nan := rfl

lemma fgt_inf_fin (b : ℚ) : fgt FVal.inf (FVal.fin b) = true := rfl

lemma fgt_fin_fin (a b : ℚ) : fgt (FVal.fin a) (FVal.fin b) = decide (b < a) := rfl

lemma round2_inf : round2 FVal.inf = FVal.inf := rfl

/-- Claim C7: with a `Close` column whose minimum is a positive finite
value `mn` and whose maximum is a finite `mx`, the fluctuation check
returns the alert record — carrying the computed min, max, and the range
percent rounded to two decimals — exactly when
`(mx - mn)/mn * 100` strictly exceeds the threshold, and returns no
alert otherwise. -/
theorem c7_fluctuation_alert_iff (df : DataFrame) (cs : List FVal) (tick : String)
    (thr mn mx : ℚ) (hc : getCol df "Close" = some cs)
    (hmn : pmin cs = FVal.fin mn) (hmx : pmax cs = FVal.fin mx) (hpos : 0 < mn) :
    (notify_if_strong_fluctuations (some df) tick thr =
        some ⟨tick, FVal.fin mn, FVal.fin mx, round2 (FVal.fin ((mx - mn) / mn * 100))⟩ ↔
      thr < (mx - mn) / mn * 100) ∧
    ((mx - mn) / mn * 100 ≤ thr → notify_if_strong_fluctuations (some df) tick thr = none) := by
  have key : notify_if_strong_fluctuations (some df) tick thr =
      if thr < (mx - mn) / mn * 100 then
        some ⟨tick, FVal.fin mn, FVal.fin mx, round2 (FVal.fin ((mx - mn) / mn * 100))⟩
      else none := by
    simp only [notify_if_strong_fluctuations, hc]
    rw [hmn, hmx, fsub_fin, fdiv_fin_of_ne _ _ (ne_of_gt hpos), fmul_fin]
    simp only [fgt_fin_fin, decide_eq_true_eq]
  constructor
  · constructor
    · intro h
      by_cases hcmp : thr < (mx - mn) / mn * 100
      · exact hcmp
      · rw [key, if_neg hcmp] at h
        exact absurd h (by simp)
    · intro hcmp
      rw [key, if_pos hcmp]
  · intro hle
    rw [key, if_neg (not_lt.mpr hle)]

/-- Witness for the C7 theorem: two bars rising from 100 to 200 with
threshold 5 produce the alert with min 100, max 200 and range percent
100. -/
theorem c7_fluctuation_witness :
    (notify_if_strong_fluctuations (some ⟨[("Close", [FVal.fin 100, FVal.fin 200])]⟩) "T" 5 =
        some ⟨"T", FVal.fin 100, FVal.fin 200,
          round2 (FVal.fin ((200 - 100) / 100 * 100))⟩ ↔
      5 < ((200 : ℚ) - 100) / 100 * 100) ∧
    (((200 : ℚ) - 100) / 100 * 100 ≤ 5 →
      notify_if_strong_fluctuations (some ⟨[("Close", [FVal.fin 100, FVal.fin 200])]⟩) "T" 5 =
        none) :=
  c7_fluctuation_alert_iff ⟨[("Close", [FVal.fin 100, FVal.fin 200])]⟩
    [FVal.fin 100, FVal.fin 200] "T" 5 100 200 rfl (by decide) (by decide) (by norm_num)

lemma notify_zero_min_general (df : DataFrame) (cs : List FVal) (tick : String)
    (thr mx : ℚ) (hc : getCol df "Close" = some cs)
    (hmn : pmin cs = FVal.fin 0) (hmx : pmax cs = FVal.fin mx) (hpos : 0 < mx) :
    notify_if_strong_fluctuations (some df) tick thr =
      some ⟨tick, FVal.fin 0, FVal.fin mx, FVal.inf⟩ := by
  simp only [notify_if_strong_fluctuations, hc]
  rw [hmn, hmx, fsub_fin]
  have h1 : fdiv (FVal.fin (mx - 0)) (FVal.fin 0) = FVal.inf := by
    rw [fdiv_fin, if_pos rfl, if_neg (by rw [sub_zero]; exact ne_of_gt hpos),
      if_pos (by rwa [sub_zero])]
  rw [h1, fmul_inf_fin, if_pos (by norm_num : (0 : ℚ) < 100), fgt_inf_fin, if_pos rfl,
    round2_inf]

/-- Claim C6 (counterexample): a close column containing the price 0 is
not guarded — the division by the zero minimum produces an IEEE
infinity, and the alert record reporting an infinite range percent is
returned. -/
theorem c6_zero_min_reports_infinity :
    notify_if_strong_fluctuations (some ⟨[("Close", [FVal.fin 0, FVal.fin 10])]⟩) "T" 5 =
      some ⟨"T", FVal.fin 0, FVal.fin 10, FVal.inf⟩ :=
  notify_zero_min_general ⟨[("Close", [FVal.fin 0, FVal.fin 10])]⟩
    [FVal.fin 0, FVal.fin 10] "T" 5 10 rfl (by decide) (by decide) (by norm_num)

/-- Claim C6 (amended): there is no guard on a zero minimum — whenever
the minimum close is exactly 0 and the maximum is a positive finite
value, `(max - min)/min` evaluates to the IEEE infinity, the comparison
`inf > threshold` holds for every finite threshold, and the transform
returns an alert whose range percent is infinite. -/
theorem c6_zero_min_infinite_percent (df : DataFrame) (cs : List FVal) (tick : String)
    (thr mx : ℚ) (hc : getCol df "Close" = some cs)
    (hmn : pmin cs = FVal.fin 0) (hmx : pmax cs = FVal.fin mx) (hpos : 0 < mx) :
    notify_if_strong_fluctuations (some df) tick thr =
      some ⟨tick, FVal.fin 0, FVal.fin mx, FVal.inf⟩ :=
  notify_zero_min_general df cs tick thr mx hc hmn hmx hpos

/-- Witness for the amended C6 theorem at a concrete frame. -/
theorem c6_infinite_percent_witness :
    notify_if_strong_fluctuations (some ⟨[("Close", [FVal.fin 0, FVal.fin 7])]⟩) "S" 5 =
      some ⟨"S", FVal.fin 0, FVal.fin 7, FVal.inf⟩ :=
  c6_zero_min_infinite_percent ⟨[("Close", [FVal.fin 0, FVal.fin 7])]⟩
    [FVal.fin 0, FVal.fin 7] "S" 5 7 rfl (by decide) (by decide) (by norm_num)

lemma fmul_nan_left (b : FVal) : fmul FVal.nan b = FVal.nan := by cases b <;> rfl

lemma toR_fin (q : ℚ) : toR (FVal.fin q) = RVal.fin (q : ℝ) := rfl

lemma toR_nan : toR FVal.nan = RVal.nan := rfl

lemma RVal.sqrt_fin (r : ℝ) :
    RVal.sqrt (RVal.fin r) = if r < 0 then RVal.nan else RVal.fin (Real.sqrt r) := rfl

lemma RVal.sqrt_nan : RVal.sqrt RVal.nan = RVal.nan := rfl

lemma RVal.div_fin (a b : ℝ) :
    RVal.div (RVal.fin a) (RVal.fin b) =
      if b = 0 then
        (if a = 0 then RVal.nan else if 0 < a then RVal.inf else RVal.ninf)
      else RVal.fin (a / b) := rfl

lemma RVal.mul_inf_fin (b : ℝ) :
    RVal.mul RVal.inf (RVal.fin b) =
      if 0 < b then RVal.inf else if b < 0 then RVal.ninf else RVal.nan := rfl

lemma RVal.mul_nan_left (b : RVal) : RVal.mul RVal.nan b = RVal.nan := by cases b <;> rfl

lemma calc_std_zero_mean_general (df : DataFrame) (col : String) (xs : List FVal) (v : ℚ)
    (hc : getCol df col = some xs) (hmean : pmean xs = FVal.fin 0)
    (hvar : pvar xs 1 = FVal.fin v) (hv : 0 < v) :
    ∃ st, calculate_standard_deviation (some df) col = some st ∧
      st.coefficient_variation = RVal.inf := by
  have hcall : calculate_standard_deviation (some df) col =
      some ⟨pstd xs 1, pvar xs 1, pmin xs, pmax xs, fsub (pmax xs) (pmin xs),
        RVal.mul (RVal.div (pstd xs 1) (toR (pmean xs))) (RVal.fin 100)⟩ := by
    simp [calculate_standard_deviation, hc]
  refine ⟨_, hcall, ?_⟩
  show RVal.mul (RVal.div (pstd xs 1) (toR (pmean xs))) (RVal.fin 100) = RVal.inf
  have hvr : (0 : ℝ) < (v : ℚ) := by exact_mod_cast hv
  have hs : (0 : ℝ) < Real.sqrt ((v : ℚ) : ℝ) := Real.sqrt_pos.mpr hvr
  rw [pstd, hvar, hmean, toR_fin, toR_fin, Rat.cast_zero, RVal.sqrt_fin,
    if_neg (not_lt.mpr hvr.le)]
  rw [RVal.div_fin, if_pos rfl, if_neg (ne_of_gt hs), if_pos hs]
  rw [RVal.mul_inf_fin, if_pos (by norm_num : (0 : ℝ) < 100)]

/-- Claim C5 (counterexample): the dispersion statistics are not guarded
against a zero mean or an empty series — on the zero-mean column
`[3, 5, -8]` and on an empty `Close` column the function still returns a
statistics record. -/
theorem c5_zero_mean_still_returns :
    pmean ([3, 5, -8].map FVal.fin) = FVal.fin 0 ∧
    (calculate_standard_deviation
        (some ⟨[("Close", [3, 5, -8].map FVal.fin)]⟩) "Close").isSome = true ∧
    (calculate_standard_deviation
        (some ⟨[("Close", ([] : List FVal))]⟩) "Close").isSome = true := by
  refine ⟨?_, ?_, ?_⟩
  · simp [pmean, valids, fsum, fadd, fdiv, List.filter]
    norm_num
  · rfl
  · rfl

/-- Claim C5 (amended): there is no explicit guard — whenever the target
column is present, has mean exactly 0 and positive sample variance, the
computation still returns a full record whose coefficient of variation is
the IEEE positive infinity (std over a zero mean), reported silently;
an empty column likewise returns a record (of NaN statistics) rather
than no result. -/
theorem c5_zero_mean_cv_infinite (df : DataFrame) (col : String) (xs : List FVal) (v : ℚ)
    (hc : getCol df col = some xs) (hmean : pmean xs = FVal.fin 0)
    (hvar : pvar xs 1 = FVal.fin v) (hv : 0 < v) :
    ∃ st, calculate_standard_deviation (some df) col = some st ∧
      st.coefficient_variation = RVal.inf :=
  calc_std_zero_mean_general df col xs v hc hmean hvar hv

/-- Witness for the amended C5 theorem on the concrete zero-mean column
`[3, 5, -8]`, whose sample variance is exactly 49. -/
theorem c5_cv_infinite_witness :
    ∃ st, calculate_standard_deviation
        (some ⟨[("Close", [3, 5, -8].map FVal.fin)]⟩) "Close" = some st ∧
      st.coefficient_variation = RVal.inf :=
  c5_zero_mean_cv_infinite ⟨[("Close", [3, 5, -8].map FVal.fin)]⟩ "Close"
    ([3, 5, -8].map FVal.fin) 49 rfl
    (by simp [pmean, valids, fsum, fadd, fdiv, List.filter]; norm_num)
    (by simp [pvar, pmean, valids, fsum, fadd, fsub, fneg, fmul, fdiv, List.filter]; norm_num)
    (by norm_num)

lemma pctChange_single (x : FVal) : pctChange [x] = [FVal.nan] := rfl

lemma pmean_nan_single : pmean [FVal.nan] = FVal.nan := by
  simp [pmean, valids, fsum, List.filter, fdiv]

lemma pstd_nan_single : pstd [FVal.nan] 1 = RVal.nan := by
  simp [pstd, pvar, valids, List.filter, toR_nan, RVal.sqrt_nan]

lemma advanced_single_bar (df : DataFrame) (q : ℚ)
    (hc : getCol df "Close" = some [FVal.fin q]) (hq : q ≠ 0) :
    advanced_price_analysis (some df) =
      some ⟨FVal.nan, RVal.nan, RVal.nan, FVal.fin q, FVal.fin q, FVal.fin 0⟩ := by
  have htot : fmul (fdiv (fsub (FVal.fin q) (FVal.fin q)) (FVal.fin q)) (FVal.fin 100) =
      FVal.fin 0 := by
    rw [fsub_fin, sub_self, fdiv_fin_of_ne _ _ hq, zero_div, fmul_fin, zero_mul]
  simp only [advanced_price_analysis, hc, pctChange_single, pmean_nan_single,
    pstd_nan_single, RVal.mul_nan_left, List.getLast_singleton, htot]

/-- Claim C9 (counterexample): on the single-bar series whose close
price is 0, the trend analysis reports a NaN total return (the IEEE
`0/0`), not the claimed 0. -/
theorem c9_zero_close_total_return_nan :
    (advanced_price_analysis (some ⟨[("Close", [FVal.fin 0])]⟩)).map
        Trend.total_return_percent = some FVal.nan ∧
      FVal.nan ≠ FVal.fin 0 := by
  constructor
  · have hc : getCol ⟨[("Close", [FVal.fin 0])]⟩ "Close" = some [FVal.fin 0] := rfl
    have htot : fmul (fdiv (fsub (FVal.fin 0) (FVal.fin 0)) (FVal.fin 0)) (FVal.fin 100) =
        FVal.nan := by
      rw [fsub_fin, sub_self, fdiv_fin, if_pos rfl, if_pos rfl, fmul_nan_left]
    simp only [advanced_price_analysis, hc, pctChange_single, List.getLast_singleton, htot,
      Option.map_some']
  · simp

/-- Claim C9 (amended): for every single-bar series the analysis returns
without raising — mean daily return, daily volatility and annualized
volatility are all NaN (undefined), start price and end price both equal
the bar's close — and the total return percent is exactly 0 provided the
close is nonzero (a zero close makes it the undefined `0/0` instead). -/
theorem c9_single_bar_trend (df : DataFrame) (q : ℚ)
    (hc : getCol df "Close" = some [FVal.fin q]) (hq : q ≠ 0) :
    advanced_price_analysis (some df) =
      some ⟨FVal.nan, RVal.nan, RVal.nan, FVal.fin q, FVal.fin q, FVal.fin 0⟩ :=
  advanced_single_bar df q hc hq

/-- Witness for the amended C9 theorem on a concrete one-bar frame with
close 5. -/
theorem c9_single_bar_witness :
    advanced_price_analysis (some ⟨[("Close", [FVal.fin 5])]⟩) =
      some ⟨FVal.nan, RVal.nan, RVal.nan, FVal.fin 5, FVal.fin 5, FVal.fin 0⟩ :=
  c9_single_bar_trend ⟨[("Close", [FVal.fin 5])]⟩ 5 rfl (by norm_num)

/-- Claim C10: when the input frame has a `Close` column and none of its
columns is already named `RSI` (true of every price series, whose
columns are the market fields), `add_technical_indicators` returns a new
frame consisting of every input column unchanged, in order, followed by
the appended indicator columns `RSI`, `MACD`, `Signal_Line` and
`Histogram`; the input frame itself is only read (the source assigns
onto a copy). -/
theorem c10_indicators_appended (df : DataFrame) (cs : List FVal)
    (hc : getCol df "Close" = some cs)
    (hfresh : "RSI" ∉ df.cols.map Prod.fst) :
    add_technical_indicators (some df) true true =
      some ⟨df.cols ++ [("RSI", rsiSeries cs 14),
                        ("MACD", macdLine cs 12 26),
                        ("Signal_Line", macdSignal cs 12 26 9),
                        ("Histogram", macdHist cs 12 26 9)]⟩ := by
  have hrsi : calculate_rsi (some df) 14 = some (rsiSeries cs 14) := by
    simp [calculate_rsi, hc]
  have hmacd : calculate_macd (some df) 12 26 9 =
      some ⟨[("MACD", macdLine cs 12 26), ("Signal_Line", macdSignal cs 12 26 9),
             ("Histogram", macdHist cs 12 26 9)]⟩ := by
    simp [calculate_macd, hc]
  have hset : setCol df "RSI" (rsiSeries cs 14) = ⟨df.cols ++ [("RSI", rsiSeries cs 14)]⟩ := by
    rw [setCol, setColList_of_fresh]
    intro p hp hcontra
    exact hfresh (hcontra ▸ List.mem_map_of_mem Prod.fst hp)
  simp only [add_technical_indicators, hrsi, hmacd, hset, if_true]
  simp

/-- Witness for the C10 theorem at a concrete one-column frame. -/
theorem c10_indicators_witness :
    add_technical_indicators (some ⟨[("Close", [FVal.fin 1])]⟩) true true =
      some ⟨[("Close", [FVal.fin 1])] ++
            [("RSI", rsiSeries [FVal.fin 1] 14),
             ("MACD", macdLine [FVal.fin 1] 12 26),
             ("Signal_Line", macdSignal [FVal.fin 1] 12 26 9),
             ("Histogram", macdHist [FVal.fin 1] 12 26 9)]⟩ :=
  c10_indicators_appended ⟨[("Close", [FVal.fin 1])]⟩ [FVal.fin 1] rfl (by decide)
